import Mathlib

/-!
# basicshell: the input interpreter, the pipe dispatcher and the curl flag parser

A shallow embedding of `src/main.go` (`execInput`, `handlePiping`,
`isValidCommand`, `commandsArray`) and of `src/curllogic/curllogic.go`
(`ParseCurlArgs`, `ExecuteCurl`).

Conventions of the embedding.

* A Go `string` is the list of its code points (`Str`); a `[]byte` buffer is
  modelled the same way (`Bytes`), so the conversions `[]byte(s)` and
  `string(b)` are the identity. A nil or empty slice is the empty list.
* Every separator the source passes to `strings.Contains`, `strings.Split`,
  `strings.SplitN` and `strings.Trim` is a one-character string literal; the
  embedding takes that character.
* Everything the program does to the outside world goes through the record
  `OS W` of collaborator operations over an abstract world state `W`; each
  operation returns the error text (if any) and the next world. A theorem
  quantified over every `OS W` and every `w : W` therefore holds whatever the
  operating system does.
* A Go function returning `error` returns `Option Error` here (`none` is `nil`).
-/

namespace BasicShell

/-! ## Go library functions used by the source -/

abbrev Str := List Char

abbrev Bytes := List Char

/-- Go `unicode.IsSpace`: the Latin-1 white space and the Unicode `White_Space` table. -/
def isSpace (c : Char) : Bool :=
  let n := c.toNat
  n == 9 || n == 10 || n == 11 || n == 12 || n == 13 || n == 32 || n == 0x85 || n == 0xA0
    || n == 0x1680 || (0x2000 ≤ n && n ≤ 0x200A) || n == 0x2028 || n == 0x2029
    || n == 0x202F || n == 0x205F || n == 0x3000

/-- Go `strings.TrimSpace`: leading, then trailing white space removed. -/
def TrimSpace (s : Str) : Str := (s.dropWhile isSpace).rdropWhile isSpace

/-- Go `strings.Trim(s, cutset)` for a one-character cutset. -/
def Trim (s : Str) (cut : Char) : Str :=
  (s.dropWhile (fun c => decide (c = cut))).rdropWhile (fun c => decide (c = cut))

/-- Go `strings.Contains(s, sub)` for a one-character `sub`. -/
def Contains (s : Str) (sub : Char) : Bool := decide (sub ∈ s)

/-- Go `strings.Cut`: the text before and after the first separator, if there is one. -/
def Cut (s : Str) (sep : Char) : Option (Str × Str) :=
  match s with
  | [] => none
  | c :: cs =>
    if c = sep then some ([], cs)
    else match Cut cs sep with
      | none => none
      | some (before, after) => some (c :: before, after)

/-- Go `strings.SplitN(s, sep, 2)`: one part when the separator is absent, else two. -/
def SplitN2 (s : Str) (sep : Char) : List Str :=
  match Cut s sep with
  | none => [s]
  | some (before, after) => [before, after]

/-- Go `strings.Split(s, sep)`: never empty, the empty string gives one empty part. -/
def Split (s : Str) (sep : Char) : List Str :=
  match s with
  | [] => [[]]
  | c :: cs =>
    if c = sep then [] :: Split cs sep
    else match Split cs sep with
      | [] => [[c]]
      | t :: ts => (c :: t) :: ts

/-- Go `strings.Join(elems, sep)`. -/
def Join (elems : List Str) (sep : Str) : Str :=
  match elems with
  | [] => []
  | [a] => a
  | a :: b :: rest => a ++ sep ++ Join (b :: rest) sep

/-- Go `strings.ToUpper`: ASCII letters are mapped by the source of the standard
library itself; `upper` stands for `unicode.ToUpper` on the runes from 0x80 on. -/
def ToUpper (upper : Char → Char) (s : Str) : Str :=
  s.map (fun c => if c.toNat < 128 then c.toUpper else upper c)

/-- Go `filepath.FromSlash` for the platform separator `sep`. -/
def FromSlash (sep : Char) (path : Str) : Str :=
  if sep = '/' then path else path.map (fun c => if c = '/' then sep else c)

/-! ## Go maps with string keys -/

/-- A `map[string]string`: a list of entries with distinct keys. -/
abbrev StrMap := List (Str × Str)

/-- The assignment `m[k] = v`: overwrite the entry of `k`, or add one. -/
def mapSet (m : StrMap) (k v : Str) : StrMap :=
  match m with
  | [] => [(k, v)]
  | (k0, v0) :: rest => if k0 = k then (k, v) :: rest else (k0, v0) :: mapSet rest k v

/-- The lookup `v, ok := m[k]`. -/
def mapGet (m : StrMap) (k : Str) : Option Str :=
  match m with
  | [] => none
  | (k0, v0) :: rest => if k0 = k then some v0 else mapGet rest k

/-! ## Errors -/

/-- The error values of the two packages. -/
inductive Error where
  /-- `main.ErrNoPath`, "path required". -/
  | ErrNoPath
  /-- `main.ErrNoArg`, "argument required". -/
  | ErrNoArg
  /-- `main.ErrNonCmd`, "not a valid command". -/
  | ErrNonCmd
  /-- `main.ErrInvalidSyntax`, "invalid syntax". -/
  | ErrInvalidSyntax
  /-- `curllogic.ErrNoArg`, "argument required". -/
  | curlErrNoArg
  /-- A `fmt.Errorf` value with its formatted text. -/
  | errorf (msg : Str)
  /-- An error of a collaborator (`os`, `os/exec`) returned unchanged. -/
  | sys (msg : Str)
  deriving DecidableEq, Repr

/-- The call `fmt.Errorf(text + ": %v", err)`. -/
def wrapErr (text : String) (err : Str) : Error := Error.errorf (text.toList ++ err)

/-! ## `curllogic.ParseCurlArgs` -/

/-- The struct `CurlArgs`; `Data` is `none` for a nil slice. -/
structure CurlArgs where
  URL : Str
  Method : Str
  Headers : StrMap
  Data : Option Bytes
  deriving DecidableEq, Repr

/-- The forward loop of `ParseCurlArgs` (curllogic.go 74-102) on the tokens from
index `i` on: `-X` and `-H` take the next token, anything else is skipped. -/
def parseFlags (upper : Char → Char) (toks : List Str) (result : CurlArgs) :
    Except Error CurlArgs :=
  match toks with
  | [] => .ok result
  | a :: rest =>
    if a = "-X".toList then
      match rest with
      | [] => .error (Error.errorf "-X requires a method".toList)
      | m :: rest2 => parseFlags upper rest2 { result with Method := ToUpper upper m }
    else if a = "-H".toList then
      match rest with
      | [] => .error (Error.errorf "-H requires a header".toList)
      | h :: rest2 =>
        match SplitN2 h ':' with
        | [p0, p1] =>
          let key := Trim (TrimSpace p0) '"'
          let value := Trim (TrimSpace p1) '"'
          parseFlags upper rest2 { result with Headers := mapSet result.Headers key value }
        | _ => .error (Error.errorf ("invalid header format: ".toList ++ h))
    else parseFlags upper rest result

/-- The reverse loop of `ParseCurlArgs` (curllogic.go 105-110) entered with index
`j`: the value left in `result.URL`, still empty when no index qualifies. -/
def findURL (args : List Str) (j : Nat) : Str :=
  match j with
  | 0 => []
  | k + 1 =>
    if args.getD (k + 1) [] ≠ "-X".toList ∧ args.getD (k + 1) [] ≠ "-H".toList
        ∧ (k + 1 = 0 ∨ args.getD k [] ≠ "-X".toList ∧ args.getD k [] ≠ "-H".toList) then
      args.getD (k + 1) []
    else findURL args k

/-- The function `ParseCurlArgs` (curllogic.go 65-124). On an error the source also
returns the partly filled struct, which no caller reads. -/
def ParseCurlArgs (upper : Char → Char) (args : List Str) (pipedInput : Bytes) :
    Except Error CurlArgs :=
  let result : CurlArgs := { URL := [], Method := [], Headers := [], Data := none }
  if args.length < 2 then .error Error.curlErrNoArg
  else
    match parseFlags upper (args.drop 1) result with
    | .error e => .error e
    | .ok result =>
      let result := { result with URL := findURL args (args.length - 1) }
      if result.URL = [] then .error (Error.errorf "URL required".toList)
      else if pipedInput.length > 0
          ∧ (result.Method = "POST".toList ∨ result.Method = "PUT".toList) then
        let result := { result with Data := some pipedInput }
        if (mapGet result.Headers "Content-Type".toList).isNone then
          .ok { result with
                Headers := mapSet result.Headers "Content-Type".toList
                  "application/octet-stream".toList }
        else .ok result
      else .ok result

/-! ## The collaborators: operating system, external processes, HTTP client -/

/-- Where a process or a write sends its output: `os.Stdout` or an opened file. -/
inductive Sink where
  | stdout
  | file (name : Str)
  deriving DecidableEq, Repr

/-- The request handed to `http.Client.Do`: method, URL, body reader contents, and
the header map that the calls `req.Header.Set` of `ExecuteCurl` leave. -/
structure Request where
  Method : Str
  URL : Str
  Body : Bytes
  Header : StrMap
  deriving DecidableEq, Repr

/-- The operations of the standard library the shell calls, over a world state `W`.
An `Option Str` or `Except Str _` result carries the text of the returned error. -/
structure OS (W : Type) where
  /-- The constant `filepath.Separator`. -/
  Separator : Char
  /-- The function `unicode.ToUpper` on runes from 0x80 on. -/
  unicodeUpper : Char → Char
  /-- The call `os.Chdir(dir)`. -/
  Chdir : Str → W → Option Str × W
  /-- The call `os.ReadFile(name)`. -/
  ReadFile : Str → W → Except Str Bytes
  /-- The call `os.WriteFile(name, data, perm)`. -/
  WriteFile : Str → Bytes → Nat → W → Option Str × W
  /-- The call `os.Remove(name)`. -/
  Remove : Str → W → Option Str × W
  /-- The call `os.Mkdir(name, perm)`. -/
  Mkdir : Str → Nat → W → Option Str × W
  /-- The call `os.Create(name)`; the opened file is the sink `Sink.file name`. -/
  Create : Str → W → Option Str × W
  /-- The calls `fmt.Print` and `fmt.Println` on the interactive output stream. -/
  Print : Bytes → W → W
  /-- The call `exec.Command("cmd.exe", "/C", line).Output()`. -/
  CmdOutput : Str → W → Except Str Bytes × W
  /-- The call `cmd.Run()` of `exec.Command("cmd.exe", "/C", line)` with `cmd.Stdin`
  bound to the given bytes (`none`: the interpreter's input stream), `cmd.Stdout`
  to the sink and `cmd.Stderr` to the interactive error stream. -/
  CmdRun : Str → Option Bytes → Sink → W → Option Str × W
  /-- The error of `http.NewRequest(method, url, body)`, if any. -/
  NewRequest : Str → Str → Option Str
  /-- The function `textproto.CanonicalMIMEHeaderKey`, which `req.Header.Set`
  applies to the key. -/
  CanonicalKey : Str → Str
  /-- The order in which `for key, value := range m` visits the entries of the map
  `m`; Go leaves it unspecified. -/
  RangeOrder : StrMap → StrMap
  /-- The call `client.Do(req)`: the transport error, or the bytes the response body
  delivers and the read error, if any, that ends it. -/
  Do : Request → W → Except Str (Bytes × Option Str) × W
  /-- A `Write` on an `*os.File`. -/
  Write : Sink → Bytes → W → Option Str × W

/-- The `io.Writer` passed to `ExecuteCurl`: a file of the operating system, or the
`bytes.Buffer` of the pipe with the bytes written so far. -/
inductive Writer where
  | sink (s : Sink)
  | buffer (b : Bytes)
  deriving DecidableEq, Repr

/-- A `Write` on the writer; a `bytes.Buffer` never fails. -/
def Writer.write {W : Type} (os : OS W) (out : Writer) (data : Bytes) (w : W) :
    Option Str × Writer × W :=
  match out with
  | .buffer b => (none, .buffer (b ++ data), w)
  | .sink s => let r := os.Write s data w; (r.1, .sink s, r.2)

/-- The loop `for key, value := range args.Headers { req.Header.Set(key, value) }`
(curllogic.go 35-37): every entry is stored under its canonical key, in the order
of the range. -/
def setHeaders {W : Type} (os : OS W) (headers : StrMap) : StrMap :=
  (os.RangeOrder headers).foldl (fun hdr e => mapSet hdr (os.CanonicalKey e.1) e.2) []

/-- The call `io.Copy(output, resp.Body)` (curllogic.go 48): the bytes the body
delivers are written, in one write and only when there are any, and the call
fails with the write error or else with the read error of the body. -/
def copyBody {W : Type} (os : OS W) (output : Writer) (body : Bytes) (readErr : Option Str)
    (w : W) : Option Str × Writer × W :=
  if body = [] then (readErr, output, w)
  else
    match output.write os body w with
    | (some e, out2, w2) => (some e, out2, w2)
    | (none, out2, w2) => (readErr, out2, w2)

/-- The function `ExecuteCurl` (curllogic.go 22-60). -/
def ExecuteCurl {W : Type} (os : OS W) (args : CurlArgs) (output : Writer) (w : W) :
    Option Error × Writer × W :=
  let args := if args.Method = [] then { args with Method := "GET".toList } else args
  match os.NewRequest args.Method args.URL with
  | some e => (some (wrapErr "Failed to create request: " e), output, w)
  | none =>
    let req : Request :=
      { Method := args.Method, URL := args.URL, Body := args.Data.getD [],
        Header := setHeaders os args.Headers }
    match os.Do req w with
    | (.error e, w1) => (some (wrapErr "Request failed: " e), output, w1)
    | (.ok (body, readErr), w1) =>
      match copyBody os output body readErr w1 with
      | (some e, out2, w2) => (some (wrapErr "Failed to read response: " e), out2, w2)
      | (none, out2, w2) =>
        match out2.write os "\n".toList w2 with
        | (some e, out3, w3) => (some (wrapErr "Failed to write newline: " e), out3, w3)
        | (none, out3, w3) => (none, out3, w3)

/-! ## `main.go`: registry and validator -/

/-- The slice `commandsArray` (main.go 61-76). -/
def commandsArray : List Str :=
  ["cd".toList, "cd..".toList, "dir".toList, "echo".toList, "type".toList, "del".toList,
   "mkdir".toList, "copy".toList, "curl".toList, "ipconfig".toList, "systeminfo".toList,
   "cls".toList, "help".toList, "exit".toList]

/-- The loop `for _, validCmd := range cmds { if cmd == validCmd { return true } }`. -/
def rangeFinds (cmd : Str) (cmds : List Str) : Bool :=
  match cmds with
  | [] => false
  | validCmd :: rest => if cmd = validCmd then true else rangeFinds cmd rest

/-- The function `isValidCommand` (main.go 563-570). -/
def isValidCommand (cmd : Str) : Bool := rangeFinds cmd commandsArray

/-! ## `main.go`: the single-command dispatcher -/

/-- How a call of `execInput` ends: it returns an error value (`none` is nil), or
the process ends in `os.Exit`. -/
inductive Outcome where
  | ret (err : Option Error)
  | exited (code : Nat)
  deriving DecidableEq, Repr

/-- The redirection split of `execInput` (main.go 84-96), repeated by `handlePiping`
on the right-hand side (main.go 353-363): the command text and the target file
name, which stays empty when there is no `>`. -/
def splitRedirect (input : Str) : Except Error (Str × Str) :=
  if Contains input '>' then
    let parts := SplitN2 input '>'
    if parts.length ≠ 2 ∨ TrimSpace (parts.getD 1 []) = [] then
      .error Error.ErrInvalidSyntax
    else .ok (TrimSpace (parts.getD 0 []), TrimSpace (parts.getD 1 []))
  else .ok (input, [])

/-- The rewrite of `cd..` (main.go 104-106 and 367-369). -/
def rewriteCdUp (cmdArgs : Str) (args : List Str) : List Str :=
  if args.length = 1 ∧ cmdArgs = "cd..".toList then ["cd".toList, "..".toList] else args

/-- The call `os.WriteFile(name, data, 0644)` with its error wrapped by
`fmt.Errorf(text + "%v", err)`. -/
def tryWrite {W : Type} (os : OS W) (text : String) (name : Str) (data : Bytes) (w : W) :
    Option Error × W :=
  match os.WriteFile name data 0o644 w with
  | (some e, w1) => (some (wrapErr text e), w1)
  | (none, w1) => (none, w1)

/-- The line `help` prints for one registry entry (main.go 267-310). -/
def helpLine (list : Str) : Option Str :=
  if list = "cd".toList then
    some (list ++ " - Change a directory by going deeper/forward\n".toList)
  else if list = "cd..".toList then
    some (list ++ " - Change directory by going higher/backwards\n".toList)
  else if list = "dir".toList then
    some (list ++ " - Show everything inside of the current directory\n".toList)
  else if list = "echo".toList then
    some (list ++ " - Print out an argument\n".toList)
  else if list = "type".toList then
    some (list ++ " - Print out the contents of a specified text file\n".toList)
  else if list = "del".toList then
    some (list ++ " - Delete a specified file within the current directory\n".toList)
  else if list = "mkdir".toList then
    some (list ++ " - Make a new directory within the current directory\n".toList)
  else if list = "copy".toList then
    some (list ++ " - Copy the contents of a source file to a destination file\n".toList)
  else if list = "curl".toList then
    some (list ++ (" - Perform a GET request to a specified link with optionally added "
      ++ "-X and -H arguments\n").toList)
  else if list = "ipconfig".toList then
    some (list ++ " - Show the network information of the current machine\n".toList)
  else if list = "systeminfo".toList then
    some (list ++ " - Show more detailed information about the current machine\n".toList)
  else if list = "cls".toList then
    some (list ++ " - Clears the terminal screen\n".toList)
  else if list = "help".toList then
    some (list ++ " - Show the current list of available commands\n".toList)
  else if list = "exit".toList then
    some (list ++ " - End the current shell session\n\n".toList)
  else none

/-- The branch of `ipconfig` and of `systeminfo` (main.go 229-257). -/
def runDiagnostic {W : Type} (os : OS W) (name : String) (filename : Str) (w : W) :
    Outcome × W :=
  match os.CmdOutput name.toList w with
  | (.error e, w1) => (.ret (some (wrapErr ("Failed to run " ++ name ++ " command: ") e)), w1)
  | (.ok output, w1) =>
    if filename ≠ [] then
      let r := tryWrite os ("Failed to write " ++ name ++ " output to file: ") filename output w1
      (.ret r.1, r.2)
    else (.ret none, os.Print (output ++ "\n".toList) w1)

/-- The default branch of the switch in `execInput` (main.go 316-339): the whole
input line goes to `cmd.exe /C`. -/
def runExternal {W : Type} (os : OS W) (input : Str) (filename : Str) (w : W) : Outcome × W :=
  if filename ≠ [] then
    match os.Create filename w with
    | (some e, w1) => (.ret (some (wrapErr "Failed to create file: " e)), w1)
    | (none, w1) =>
      let r := os.CmdRun input none (.file filename) w1
      (.ret (r.1.map Error.sys), r.2)
  else
    let r := os.CmdRun input none .stdout w
    (.ret (r.1.map Error.sys), r.2)

/-- The curl branch shared by `execInput` (main.go 216-227) and the right-hand side
of `handlePiping` (main.go 531-541): with a redirect target the process-wide output
stream is the created file for the duration of the call. -/
def curlTo {W : Type} (os : OS W) (curlArgs : CurlArgs) (filename : Str) (w : W) :
    Option Error × W :=
  if filename ≠ [] then
    match os.Create filename w with
    | (some e, w1) => (some (wrapErr "Failed to create file: " e), w1)
    | (none, w1) =>
      let r := ExecuteCurl os curlArgs (.sink (.file filename)) w1
      (r.1, r.2.2)
  else
    let r := ExecuteCurl os curlArgs (.sink .stdout) w
    (r.1, r.2.2)

/-- The switch of `execInput` (main.go 122-341) on a validated argument vector. -/
def execBuiltin {W : Type} (os : OS W) (input : Str) (args : List Str) (filename : Str)
    (w : W) : Outcome × W :=
  let a0 := args.getD 0 []
  if a0 = "cd".toList then
    if args.length < 2 then (.ret (some .ErrNoPath), w)
    else
      let r := os.Chdir (FromSlash os.Separator (args.getD 1 [])) w
      (.ret (r.1.map Error.sys), r.2)
  else if a0 = "echo".toList then
    if args.length < 2 then (.ret (some .ErrNoArg), w)
    else
      let output := Join (args.drop 1) " ".toList
      if filename ≠ [] then
        let r := tryWrite os "Failed to write to file: " filename (output ++ "\n".toList) w
        (.ret r.1, r.2)
      else (.ret none, os.Print (output ++ "\n".toList) w)
  else if a0 = "type".toList then
    if args.length < 2 then (.ret (some .ErrNoArg), w)
    else
      match os.ReadFile (args.getD 1 []) w with
      | .error e => (.ret (some (wrapErr "Failed to read file: " e)), w)
      | .ok content =>
        if filename ≠ [] then
          let r := tryWrite os "Failed to write to file: " filename content w
          (.ret r.1, r.2)
        else (.ret none, os.Print content w)
  else if a0 = "del".toList then
    if args.length < 2 then (.ret (some .ErrNoArg), w)
    else
      match os.Remove (args.getD 1 []) w with
      | (some e, w1) => (.ret (some (wrapErr "Failed to delete file: " e)), w1)
      | (none, w1) => (.ret none, w1)
  else if a0 = "mkdir".toList then
    if args.length < 2 then (.ret (some .ErrNoArg), w)
    else
      match os.Mkdir (args.getD 1 []) 0o755 w with
      | (some e, w1) => (.ret (some (wrapErr "Failed to create directory: " e)), w1)
      | (none, w1) => (.ret none, w1)
  else if a0 = "copy".toList then
    if args.length < 3 then (.ret (some .ErrNoArg), w)
    else
      match os.ReadFile (args.getD 1 []) w with
      | .error e => (.ret (some (wrapErr "Failed to read source file: " e)), w)
      | .ok content =>
        match tryWrite os "Failed to write to destination file: " (args.getD 2 []) content w with
        | (some e, w1) => (.ret (some e), w1)
        | (none, w1) =>
          if filename ≠ [] then
            let r := tryWrite os "Failed to write to redirected file: " filename content w1
            (.ret r.1, r.2)
          else (.ret none, w1)
  else if a0 = "curl".toList then
    match ParseCurlArgs os.unicodeUpper args [] with
    | .error e => (.ret (some e), w)
    | .ok curlArgs =>
      let r := curlTo os curlArgs filename w
      (.ret r.1, r.2)
  else if a0 = "ipconfig".toList then runDiagnostic os "ipconfig" filename w
  else if a0 = "systeminfo".toList then runDiagnostic os "systeminfo" filename w
  else if a0 = "cls".toList then (.ret none, os.Print "\x1b[2J\x1b[1;1H".toList w)
  else if a0 = "help".toList then
    (.ret none,
      commandsArray.foldl
        (fun w1 list => match helpLine list with
          | some line => os.Print line w1
          | none => w1)
        (os.Print "\n".toList w))
  else if a0 = "exit".toList then (.exited 0, w)
  else runExternal os input filename w

/-! ## `main.go`: the pipeline dispatcher -/

/-- The left-hand switch of `handlePiping` (main.go 375-445): the captured output,
or the error the function returns with. A name without a case leaves the buffer
empty. -/
def pipeLeft {W : Type} (os : OS W) (leftCmd : Str) (leftArgs : List Str) (w : W) :
    Except Error Bytes × W :=
  let a0 := leftArgs.getD 0 []
  if a0 = "cd".toList then
    if leftArgs.length < 2 then (.error .ErrNoPath, w)
    else
      match os.Chdir (FromSlash os.Separator (leftArgs.getD 1 [])) w with
      | (some e, w1) => (.error (.sys e), w1)
      | (none, w1) => (.ok [], w1)
  else if a0 = "echo".toList then
    if leftArgs.length < 2 then (.error .ErrNoArg, w)
    else (.ok (Join (leftArgs.drop 1) " ".toList ++ "\n".toList), w)
  else if a0 = "type".toList then
    if leftArgs.length < 2 then (.error .ErrNoArg, w)
    else
      match os.ReadFile (leftArgs.getD 1 []) w with
      | .error e => (.error (wrapErr "Failed to read file: " e), w)
      | .ok content => (.ok content, w)
  else if a0 = "mkdir".toList then
    if leftArgs.length < 2 then (.error .ErrNoArg, w)
    else
      match os.Mkdir (leftArgs.getD 1 []) 0o755 w with
      | (some e, w1) => (.error (wrapErr "Failed to create directory: " e), w1)
      | (none, w1) => (.ok [], w1)
  else if a0 = "copy".toList then
    if leftArgs.length < 3 then
      (.error (.errorf "Copy requires source and destination".toList), w)
    else
      match os.ReadFile (leftArgs.getD 1 []) w with
      | .error e => (.error (wrapErr "Failed to read source file: " e), w)
      | .ok content =>
        match tryWrite os "Failed to write to destination file: " (leftArgs.getD 2 [])
            content w with
        | (some e, w1) => (.error e, w1)
        | (none, w1) => (.ok content, w1)
  else if a0 = "curl".toList then
    match ParseCurlArgs os.unicodeUpper leftArgs [] with
    | .error e => (.error e, w)
    | .ok curlArgs =>
      match ExecuteCurl os curlArgs (.buffer []) w with
      | (some e, _, w1) => (.error e, w1)
      | (none, .buffer b, w1) => (.ok b, w1)
      | (none, .sink _, w1) => (.ok [], w1)
  else if a0 = "dir".toList then
    match os.CmdOutput leftCmd w with
    | (.error e, w1) => (.error (.sys e), w1)
    | (.ok out, w1) => (.ok out, w1)
  else (.ok [], w)

/-- The right-hand switch of `handlePiping` (main.go 453-560) with the captured
`output` as piped input. A name without a case returns nil. -/
def pipeRight {W : Type} (os : OS W) (rightCmd : Str) (rightArgs : List Str) (filename : Str)
    (output : Bytes) (w : W) : Option Error × W :=
  let a0 := rightArgs.getD 0 []
  if a0 = "cd".toList then
    if rightArgs.length < 2 then (some .ErrNoPath, w)
    else
      let r := os.Chdir (FromSlash os.Separator (rightArgs.getD 1 [])) w
      (r.1.map Error.sys, r.2)
  else if a0 = "echo".toList then
    if filename ≠ [] then tryWrite os "Failed to write to file: " filename output w
    else (none, os.Print output w)
  else if a0 = "type".toList then
    if rightArgs.length < 2 then (some .ErrNoArg, w)
    else
      match tryWrite os "Failed to write to file: " (rightArgs.getD 1 []) output w with
      | (some e, w1) => (some e, w1)
      | (none, w1) =>
        if filename ≠ [] then tryWrite os "Failed to write to file: " filename output w1
        else (none, w1)
  else if a0 = "del".toList then
    let filenameToDelete := TrimSpace output
    if filenameToDelete = [] then (some .ErrNoArg, w)
    else
      match os.Remove filenameToDelete w with
      | (some e, w1) => (some (wrapErr "Failed to delete file: " e), w1)
      | (none, w1) => (none, w1)
  else if a0 = "mkdir".toList then
    let filenameToCreate := TrimSpace output
    if filenameToCreate = [] then (some .ErrNoArg, w)
    else
      match os.Mkdir filenameToCreate 0o755 w with
      | (some e, w1) => (some (wrapErr "Failed to create directory: " e), w1)
      | (none, w1) => (none, w1)
  else if a0 = "copy".toList then
    if rightArgs.length < 2 then
      (some (.errorf "Copy requires destination with piped input".toList), w)
    else
      match tryWrite os "Failed to write to destination file: " (rightArgs.getD 1 [])
          output w with
      | (some e, w1) => (some e, w1)
      | (none, w1) =>
        if filename ≠ [] then
          tryWrite os "Failed to write to redirected file: " filename output w1
        else (none, w1)
  else if a0 = "curl".toList then
    match ParseCurlArgs os.unicodeUpper rightArgs output with
    | .error e => (some e, w)
    | .ok curlArgs => curlTo os curlArgs filename w
  else if a0 = "dir".toList then
    if filename ≠ [] then
      match os.Create filename w with
      | (some e, w1) => (some (wrapErr "Failed to create file: " e), w1)
      | (none, w1) =>
        let r := os.CmdRun rightCmd (some output) (.file filename) w1
        (r.1.map Error.sys, r.2)
    else
      let r := os.CmdRun rightCmd (some output) .stdout w
      (r.1.map Error.sys, r.2)
  else (none, w)

/-- The function `handlePiping` (main.go 344-561). -/
def handlePiping {W : Type} (os : OS W) (input : Str) (w : W) : Option Error × W :=
  let parts := SplitN2 input '|'
  if parts.length ≠ 2 ∨ TrimSpace (parts.getD 1 []) = [] then (some .ErrInvalidSyntax, w)
  else
    let leftCmd := TrimSpace (parts.getD 0 [])
    let rightInput := TrimSpace (parts.getD 1 [])
    match splitRedirect rightInput with
    | .error e => (some e, w)
    | .ok (rightCmd, filename) =>
      let leftArgs := rewriteCdUp leftCmd (Split leftCmd ' ')
      if ¬ isValidCommand (leftArgs.getD 0 []) then (some .ErrNonCmd, w)
      else
        match pipeLeft os leftCmd leftArgs w with
        | (.error e, w1) => (some e, w1)
        | (.ok output, w1) =>
          let rightArgs := Split rightCmd ' '
          if ¬ isValidCommand (rightArgs.getD 0 []) then (some .ErrNonCmd, w1)
          else pipeRight os rightCmd rightArgs filename output w1

/-- The function `execInput` (main.go 78-342). -/
def execInput {W : Type} (os : OS W) (input : Str) (w : W) : Outcome × W :=
  if Contains input '|' then
    let r := handlePiping os input w
    (.ret r.1, r.2)
  else
    match splitRedirect input with
    | .error e => (.ret (some e), w)
    | .ok (cmdArgs, filename) =>
      let args := rewriteCdUp cmdArgs (Split cmdArgs ' ')
      let command := args.getD 0 []
      if ¬ rangeFinds command commandsArray then (.ret (some .ErrNonCmd), w)
      else execBuiltin os input args filename w

/-! ## A recording world, to run the model on concrete lines -/

/-- A world that records what the shell asked for: the working directory last set,
the files written, and the command lines handed to `cmd.exe`. -/
structure World where
  cwd : Str
  files : StrMap
  dirs : List Str
  screen : Bytes
  spawned : List Str
  deriving DecidableEq, Repr

/-- The world before any command: no file, nothing printed, nothing spawned. -/
def World.start : World :=
  { cwd := "C:/".toList, files := [], dirs := [], screen := [], spawned := [] }

/-- Collaborators over `World`: file operations act on the recorded file table,
every external process is recorded and reports failure, and there is no network. -/
def recOS : OS World where
  Separator := '/'
  unicodeUpper := id
  Chdir := fun dir w => (none, { w with cwd := dir })
  ReadFile := fun name w =>
    match mapGet w.files name with
    | some data => .ok data
    | none => .error "file not found".toList
  WriteFile := fun name data _ w => (none, { w with files := mapSet w.files name data })
  Remove := fun name w =>
    match mapGet w.files name with
    | some _ => (none, { w with files := w.files.filter (fun e => e.1 ≠ name) })
    | none => (some "file not found".toList, w)
  Mkdir := fun name _ w =>
    if name ∈ w.dirs then (some "directory exists".toList, w)
    else (none, { w with dirs := w.dirs ++ [name] })
  Create := fun name w => (none, { w with files := mapSet w.files name [] })
  Print := fun data w => { w with screen := w.screen ++ data }
  CmdOutput := fun line w =>
    (.error "exit status 1".toList, { w with spawned := w.spawned ++ [line] })
  CmdRun := fun line _ _ w =>
    (some "exit status 1".toList, { w with spawned := w.spawned ++ [line] })
  NewRequest := fun _ _ => none
  CanonicalKey := id
  RangeOrder := id
  Do := fun _ w => (.error "no network".toList, w)
  Write := fun s data w =>
    match s with
    | .stdout => (none, { w with screen := w.screen ++ data })
    | .file name =>
      (none, { w with files := mapSet w.files name ((mapGet w.files name).getD [] ++ data) })

/-! ## The properties, as the specification words them -/

/-- The registry as the specification lists it (section 4.2): the fourteen names. -/
def IsRegistryName (s : Str) : Prop :=
  s = "cd".toList ∨ s = "cd..".toList ∨ s = "dir".toList ∨ s = "echo".toList
    ∨ s = "type".toList ∨ s = "del".toList ∨ s = "mkdir".toList ∨ s = "copy".toList
    ∨ s = "curl".toList ∨ s = "ipconfig".toList ∨ s = "systeminfo".toList
    ∨ s = "cls".toList ∨ s = "help".toList ∨ s = "exit".toList

/-- The relation "`r` is `s` with the leading and trailing characters of the class
`p` removed": `s` is `r` between two runs of characters of the class, and `r`
neither begins nor ends with one. -/
def Stripped (p : Char → Bool) (s r : Str) : Prop :=
  ∃ a b, s = a ++ r ++ b ∧ (∀ c ∈ a, p c = true) ∧ (∀ c ∈ b, p c = true) ∧
    (∀ c, r.head? = some c → p c = false) ∧ (∀ c, r.getLast? = some c → p c = false)

/-- The class of the double quote character. -/
def isQuote (c : Char) : Bool := decide (c = '"')

/-- The text without its leading characters of the class `p`. -/
def stripLeft (p : Char → Bool) (s : Str) : Str :=
  match s with
  | [] => []
  | c :: cs => if p c then stripLeft p cs else c :: cs

/-- The text without its trailing characters of the class `p`. -/
def stripRight (p : Char → Bool) (s : Str) : Str :=
  match s with
  | [] => []
  | c :: cs =>
    match stripRight p cs with
    | [] => if p c then [] else [c]
    | x :: xs => c :: x :: xs

/-- The text without the characters of the class `p` at both ends. -/
def strip (p : Char → Bool) (s : Str) : Str := stripRight p (stripLeft p s)

/-- The key of a header text as the specification words it (section 4.5): the text
before the first colon, surrounding white space removed, then the enclosing double
quotes. -/
def headerKey (h : Str) : Str :=
  strip isQuote (strip isSpace (h.takeWhile (fun c => c ≠ ':')))

/-- The value of a header text as the specification words it: everything after the
first colon, surrounding white space removed, then the enclosing double quotes. -/
def headerValue (h : Str) : Str :=
  strip isQuote (strip isSpace ((h.dropWhile (fun c => c ≠ ':')).drop 1))

/-- The value the specification gives a key after the header texts `hs`, the last
occurrence of a repeated key winning. -/
def lastHeader (hs : List Str) (k : Str) : Option Str :=
  match hs with
  | [] => none
  | h :: rest =>
    match lastHeader rest k with
    | some v => some v
    | none => if headerKey h = k then some (headerValue h) else none

/-- The argument tokens `-H h1 -H h2 ...` for the header texts `hs`. -/
def headerFlags (hs : List Str) : List Str :=
  match hs with
  | [] => []
  | h :: rest => "-H".toList :: h :: headerFlags rest

/-- The tokens the forward flag scan of `ParseCurlArgs` treats as positional: those
it consumes neither as a flag name (`-X`, `-H`) nor as the value after one. -/
def forwardPositionals (toks : List Str) : List Str :=
  match toks with
  | [] => []
  | a :: rest =>
    if a = "-X".toList ∨ a = "-H".toList then
      match rest with
      | [] => []
      | _ :: rest2 => forwardPositionals rest2
    else a :: forwardPositionals rest

/-! ## Lemmas on the library functions -/

theorem rangeFinds_eq_true_iff (cmd : Str) (cmds : List Str) :
    rangeFinds cmd cmds = true ↔ cmd ∈ cmds := by
  induction cmds with
  | nil => simp [rangeFinds]
  | cons c cs ih =>
    by_cases h : cmd = c
    · simp [rangeFinds, h]
    · simp [rangeFinds, h, ih]

theorem isValidCommand_iff (s : Str) : isValidCommand s = true ↔ IsRegistryName s := by
  simp [isValidCommand, rangeFinds_eq_true_iff, commandsArray, IsRegistryName]

theorem Contains_eq_false {s : Str} {c : Char} (h : c ∉ s) : Contains s c = false := by
  simp [Contains, h]

theorem Contains_eq_true {s : Str} {c : Char} (h : c ∈ s) : Contains s c = true := by
  simp [Contains, h]

theorem Cut_append {a : Str} {sep : Char} (h : sep ∉ a) (b : Str) :
    Cut (a ++ sep :: b) sep = some (a, b) := by
  induction a with
  | nil => simp [Cut]
  | cons c cs ih =>
    have hc : c ≠ sep := fun e => h (by simp [e])
    have hcs : sep ∉ cs := fun e => h (by simp [e])
    simp [Cut, hc, ih hcs]

theorem Cut_eq_none {s : Str} {sep : Char} (h : sep ∉ s) : Cut s sep = none := by
  induction s with
  | nil => simp [Cut]
  | cons c cs ih =>
    have hc : c ≠ sep := fun e => h (by simp [e])
    have hcs : sep ∉ cs := fun e => h (by simp [e])
    simp [Cut, hc, ih hcs]

theorem SplitN2_append {a : Str} {sep : Char} (h : sep ∉ a) (b : Str) :
    SplitN2 (a ++ sep :: b) sep = [a, b] := by
  simp [SplitN2, Cut_append h]

theorem Split_ne_nil (s : Str) (sep : Char) : Split s sep ≠ [] := by
  induction s with
  | nil => simp [Split]
  | cons c cs ih =>
    by_cases hc : c = sep
    · simp [Split, hc]
    · cases hs : Split cs sep with
      | nil => exact absurd hs ih
      | cons t ts => simp [Split, hc, hs]

theorem splitRedirect_of_not_mem {s : Str} (h : '>' ∉ s) : splitRedirect s = .ok (s, []) := by
  simp [splitRedirect, Contains_eq_false h]

theorem exists_first_occurrence {c : Char} {s : Str} (h : c ∈ s) :
    ∃ a b, s = a ++ c :: b ∧ c ∉ a := by
  induction s with
  | nil => simp at h
  | cons x xs ih =>
    by_cases hx : x = c
    · exact ⟨[], xs, by simp [hx], by simp⟩
    · have hmem : c ∈ xs := by
        rcases List.mem_cons.mp h with e | e
        · exact absurd e.symm hx
        · exact e
      obtain ⟨a, b, hab, hna⟩ := ih hmem
      refine ⟨x :: a, b, by simp [hab], ?_⟩
      intro hc
      rcases List.mem_cons.mp hc with e | e
      · exact hx e.symm
      · exact hna e

theorem dropWhile_append_cons_of_not {p : Char → Bool} {c : Char} (hc : p c = false)
    (b post : Str) : (b ++ c :: post).dropWhile p = b.dropWhile p ++ c :: post := by
  induction b with
  | nil => simp [List.dropWhile, hc]
  | cons x xs ih =>
    by_cases hx : p x = true
    · simp [List.dropWhile, hx, ih]
    · simp [List.dropWhile, hx]

theorem dropWhile_all_append_cons {p : Char → Bool} {c : Char} (hc : p c = false)
    {l : Str} (hl : ∀ x ∈ l, p x = true) (r : Str) :
    (l ++ c :: r).dropWhile p = c :: r := by
  induction l with
  | nil => simp [List.dropWhile, hc]
  | cons x xs ih =>
    have hx : p x = true := hl x (by simp)
    have hxs : ∀ y ∈ xs, p y = true := fun y hy => hl y (by simp [hy])
    simp [List.dropWhile, hx, ih hxs]

theorem rdropWhile_append_cons_of_all {p : Char → Bool} {c : Char} (hc : p c = false)
    (a : Str) {post : Str} (hpost : ∀ x ∈ post, p x = true) :
    (a ++ c :: post).rdropWhile p = a ++ [c] := by
  have hrev : ∀ x ∈ post.reverse, p x = true := fun x hx => hpost x (List.mem_reverse.mp hx)
  simp [List.rdropWhile, dropWhile_all_append_cons hc hrev]

theorem TrimSpace_nil : TrimSpace [] = [] := by
  simp [TrimSpace, List.rdropWhile]

theorem TrimSpace_of_all_space {s : Str} (h : ∀ c ∈ s, isSpace c = true) :
    TrimSpace s = [] := by
  have : s.dropWhile isSpace = [] := by
    rw [List.dropWhile_eq_nil_iff]
    exact h
  simp [TrimSpace, this, List.rdropWhile]

/-- A text that ends in a visible character followed by white space only is trimmed
to its left-trimmed part up to that character. -/
theorem TrimSpace_append_cons {c : Char} (hc : isSpace c = false) (b : Str) {post : Str}
    (hpost : ∀ x ∈ post, isSpace x = true) :
    TrimSpace (b ++ c :: post) = b.dropWhile isSpace ++ [c] := by
  simp [TrimSpace, dropWhile_append_cons_of_not hc, rdropWhile_append_cons_of_all hc _ hpost]

theorem splitRedirect_empty_target {pre post : Str} (hpre : '>' ∉ pre)
    (hpost : ∀ c ∈ post, isSpace c = true) :
    splitRedirect (pre ++ '>' :: post) = .error .ErrInvalidSyntax := by
  simp [splitRedirect, Contains, SplitN2_append hpre, TrimSpace_of_all_space hpost]

theorem Split_append_sep {a : Str} {sep : Char} (h : sep ∉ a) (b : Str) :
    Split (a ++ sep :: b) sep = a :: Split b sep := by
  induction a with
  | nil => simp [Split]
  | cons c cs ih =>
    have hc : c ≠ sep := fun e => h (by simp [e])
    have hcs : sep ∉ cs := fun e => h (by simp [e])
    simp [Split, hc, ih hcs]

theorem Split_of_not_mem {a : Str} {sep : Char} (h : sep ∉ a) : Split a sep = [a] := by
  induction a with
  | nil => simp [Split]
  | cons c cs ih =>
    have hc : c ≠ sep := fun e => h (by simp [e])
    have hcs : sep ∉ cs := fun e => h (by simp [e])
    simp [Split, hc, ih hcs]

theorem Join_Split (s : Str) (sep : Char) : Join (Split s sep) [sep] = s := by
  induction s with
  | nil => simp [Split, Join]
  | cons c cs ih =>
    by_cases hc : c = sep
    · cases hs : Split cs sep with
      | nil => exact absurd hs (Split_ne_nil cs sep)
      | cons t ts =>
        rw [hs] at ih
        simp [Split, hc, hs, Join, ih]
    · cases hs : Split cs sep with
      | nil => exact absurd hs (Split_ne_nil cs sep)
      | cons t ts =>
        rw [hs] at ih
        cases ts with
        | nil =>
          simp [Join] at ih
          simp [Split, hc, hs, Join, ih]
        | cons t2 ts2 =>
          simp [Join] at ih
          simp [Split, hc, hs, Join, ih]

theorem not_mem_Join {c : Char} {sep : Str} (hsep : c ∉ sep) {words : List Str}
    (h : ∀ x ∈ words, c ∉ x) : c ∉ Join words sep := by
  induction words with
  | nil => simp [Join]
  | cons a rest ih =>
    have ha : c ∉ a := h a (by simp)
    have hrest : ∀ x ∈ rest, c ∉ x := fun x hx => h x (by simp [hx])
    cases rest with
    | nil => simpa [Join] using ha
    | cons b rest2 =>
      have := ih hrest
      simp [Join, ha, hsep, this]

theorem dropWhile_all_append {p : Char → Bool} {l : Str} (hl : ∀ x ∈ l, p x = true) (r : Str) :
    (l ++ r).dropWhile p = r.dropWhile p := by
  induction l with
  | nil => simp
  | cons x xs ih =>
    have hx : p x = true := hl x (by simp)
    have hxs : ∀ y ∈ xs, p y = true := fun y hy => hl y (by simp [hy])
    simp [List.dropWhile, hx, ih hxs]

/-- A text that trimming leaves unchanged has no leading white space. -/
theorem dropWhile_of_TrimSpace_eq {s : Str} (h : TrimSpace s = s) :
    s.dropWhile isSpace = s := by
  have h1 : (TrimSpace s).length ≤ (s.dropWhile isSpace).length :=
    (List.rdropWhile_prefix isSpace _).length_le
  have h2 : (s.dropWhile isSpace).length ≤ s.length :=
    (List.dropWhile_suffix isSpace).length_le
  rw [h] at h1
  exact (List.dropWhile_suffix isSpace).eq_of_length (Nat.le_antisymm h2 h1)

/-- A non-empty text that trimming leaves unchanged ends in a visible character. -/
theorem last_visible_of_TrimSpace_eq {s : Str} (h0 : s ≠ []) (h : TrimSpace s = s) :
    ∃ init c, s = init ++ [c] ∧ isSpace c = false ∧ init.dropWhile isSpace = init := by
  have hd := dropWhile_of_TrimSpace_eq h
  have hr : s.rdropWhile isSpace = s := by
    have := h
    unfold TrimSpace at this
    rwa [hd] at this
  rcases List.eq_nil_or_concat s with hnil | ⟨init, c, hc⟩
  · exact absurd hnil h0
  · rw [List.concat_eq_append] at hc
    have hcs : isSpace c = false := by
      cases hsp : isSpace c with
      | false => rfl
      | true =>
        exfalso
        rw [hc, List.rdropWhile_concat] at hr
        simp only [hsp, if_true] at hr
        have hlen := (List.rdropWhile_prefix isSpace init).length_le
        rw [hr] at hlen
        simp at hlen
    refine ⟨init, c, hc, hcs, ?_⟩
    rw [hc, dropWhile_append_cons_of_not hcs] at hd
    exact List.append_cancel_right hd

/-- Trimming removes white space around a text that is already trimmed. -/
theorem TrimSpace_around {lead trail : Str} (hlead : ∀ x ∈ lead, isSpace x = true)
    (htrail : ∀ x ∈ trail, isSpace x = true) {s : Str} (h0 : s ≠ [])
    (h : TrimSpace s = s) : TrimSpace (lead ++ s ++ trail) = s := by
  obtain ⟨init, c, hc, hcs, hinit⟩ := last_visible_of_TrimSpace_eq h0 h
  have : lead ++ s ++ trail = (lead ++ init) ++ c :: trail := by simp [hc]
  rw [this, TrimSpace_append_cons hcs _ htrail, dropWhile_all_append hlead, hinit, hc]

/-- The same with a visible first character `c0` and any middle part in front. -/
theorem TrimSpace_around_cons {lead trail : Str} (hlead : ∀ x ∈ lead, isSpace x = true)
    (htrail : ∀ x ∈ trail, isSpace x = true) (c0 : Char) (hc0 : isSpace c0 = false)
    (mid : Str) {s : Str} (h0 : s ≠ []) (h : TrimSpace s = s) :
    TrimSpace (lead ++ c0 :: (mid ++ s) ++ trail) = c0 :: (mid ++ s) := by
  obtain ⟨init, c, hc, hcs, -⟩ := last_visible_of_TrimSpace_eq h0 h
  have : lead ++ c0 :: (mid ++ s) ++ trail = (lead ++ c0 :: (mid ++ init)) ++ c :: trail := by
    simp [hc]
  rw [this, TrimSpace_append_cons hcs _ htrail, dropWhile_all_append_cons hc0 hlead, hc]
  simp

theorem tryWrite_match_eta {W : Type} (r : Option Error × W) :
    (match r with
      | (some e, w1) => (some e, w1)
      | (none, w1) => (none, w1)) = r := by
  rcases r with ⟨_ | e, w1⟩ <;> rfl

/-- The function `handlePiping` once its pipe split is known. -/
theorem handlePiping_of_split {W : Type} (os : OS W) (w : W) (input left right : Str)
    (hsplit : SplitN2 input '|' = [left, right]) (hr0 : TrimSpace right ≠ []) :
    handlePiping os input w
      = match splitRedirect (TrimSpace right) with
        | .error e => (some e, w)
        | .ok (rightCmd, filename) =>
          if ¬ isValidCommand
              ((rewriteCdUp (TrimSpace left) (Split (TrimSpace left) ' ')).getD 0 []) then
            (some .ErrNonCmd, w)
          else
            match pipeLeft os (TrimSpace left)
                (rewriteCdUp (TrimSpace left) (Split (TrimSpace left) ' ')) w with
            | (.error e, w1) => (some e, w1)
            | (.ok output, w1) =>
              if ¬ isValidCommand ((Split rightCmd ' ').getD 0 []) then (some .ErrNonCmd, w1)
              else pipeRight os rightCmd (Split rightCmd ' ') filename output w1 := by
  unfold handlePiping
  simp only [hsplit, List.length_cons, List.length_nil, List.getD_cons_zero,
    List.getD_cons_succ]
  simp [hr0]

theorem pipeLeft_echo {W : Type} (os : OS W) (w : W) (leftCmd a : Str) (rest : List Str) :
    pipeLeft os leftCmd ("echo".toList :: a :: rest) w
      = (.ok (Join (a :: rest) " ".toList ++ "\n".toList), w) := by
  simp [pipeLeft]

theorem pipeRight_type {W : Type} (os : OS W) (w : W) (rightCmd f filename : Str)
    (output : Bytes) :
    pipeRight os rightCmd ["type".toList, f] filename output w
      = match tryWrite os "Failed to write to file: " f output w with
        | (some e, w1) => (some e, w1)
        | (none, w1) =>
          if filename ≠ [] then tryWrite os "Failed to write to file: " filename output w1
          else (none, w1) := by
  simp [pipeRight]

theorem execBuiltin_echo {W : Type} (os : OS W) (w : W) (input a filename : Str)
    (rest : List Str) (hf : filename ≠ []) :
    execBuiltin os input ("echo".toList :: a :: rest) filename w
      = (.ret (tryWrite os "Failed to write to file: " filename
            (Join (a :: rest) " ".toList ++ "\n".toList) w).1,
          (tryWrite os "Failed to write to file: " filename
            (Join (a :: rest) " ".toList ++ "\n".toList) w).2) := by
  simp [execBuiltin, hf]

theorem rewriteCdUp_of_two (cmdArgs a b : Str) (rest : List Str) :
    rewriteCdUp cmdArgs (a :: b :: rest) = a :: b :: rest := by
  simp [rewriteCdUp]

theorem splitRedirect_of_split {pre post : Str} (hpre : '>' ∉ pre)
    (hpost : TrimSpace post ≠ []) :
    splitRedirect (pre ++ '>' :: post) = .ok (TrimSpace pre, TrimSpace post) := by
  simp [splitRedirect, Contains, SplitN2_append hpre, hpost]

/-- The function `execInput` on a line without a pipe once its redirection split
is known. -/
theorem execInput_of_redirect {W : Type} (os : OS W) (w : W) (input cmdArgs filename : Str)
    (hp : '|' ∉ input) (hsr : splitRedirect input = .ok (cmdArgs, filename)) :
    execInput os input w
      = if ¬ rangeFinds ((rewriteCdUp cmdArgs (Split cmdArgs ' ')).getD 0 []) commandsArray then
          (.ret (some .ErrNonCmd), w)
        else execBuiltin os input (rewriteCdUp cmdArgs (Split cmdArgs ' ')) filename w := by
  simp [execInput, Contains_eq_false hp, hsr]

theorem mapGet_mapSet_self (m : StrMap) (k v : Str) : mapGet (mapSet m k v) k = some v := by
  induction m with
  | nil => simp [mapSet, mapGet]
  | cons e rest ih =>
    obtain ⟨k0, v0⟩ := e
    by_cases hk : k0 = k
    · simp [mapSet, mapGet, hk]
    · simp [mapSet, mapGet, hk, ih]

theorem mapGet_mapSet_of_ne (m : StrMap) {k k2 : Str} (v : Str) (h : k ≠ k2) :
    mapGet (mapSet m k v) k2 = mapGet m k2 := by
  induction m with
  | nil => simp [mapSet, mapGet, h]
  | cons e rest ih =>
    obtain ⟨k0, v0⟩ := e
    by_cases hk : k0 = k
    · subst hk
      simp [mapSet, mapGet, h]
    · by_cases hk2 : k0 = k2
      · subst hk2
        simp [mapSet, mapGet, hk]
      · simp [mapSet, mapGet, hk, hk2, ih]

theorem ToUpper_ascii (upper : Char → Char) {m : Str} (hm : ∀ c ∈ m, c.toNat < 128) :
    ToUpper upper m = m.map Char.toUpper := by
  unfold ToUpper
  apply List.map_congr_left
  intro c hc
  simp [hm c hc]

theorem Cut_of_mem {s : Str} {sep : Char} (h : sep ∈ s) :
    Cut s sep = some (s.takeWhile (fun c => c ≠ sep), (s.dropWhile (fun c => c ≠ sep)).drop 1) := by
  induction s with
  | nil => simp at h
  | cons c cs ih =>
    by_cases hc : c = sep
    · simp [Cut, hc, List.takeWhile, List.dropWhile]
    · have hmem : sep ∈ cs := by
        rcases List.mem_cons.mp h with e | e
        · exact absurd e.symm hc
        · exact e
      simp [Cut, hc, ih hmem, List.takeWhile, List.dropWhile]

theorem stripLeft_eq_dropWhile (p : Char → Bool) (s : Str) :
    stripLeft p s = s.dropWhile p := by
  induction s with
  | nil => rfl
  | cons c cs ih =>
    by_cases hc : p c = true
    · simp [stripLeft, List.dropWhile, hc, ih]
    · simp [stripLeft, List.dropWhile, hc]

theorem rdropWhile_cons (p : Char → Bool) (c : Char) (cs : Str) :
    (c :: cs).rdropWhile p
      = match cs.rdropWhile p with
        | [] => if p c then [] else [c]
        | x :: xs => c :: x :: xs := by
  induction cs using List.reverseRecOn with
  | nil =>
    by_cases hc : p c = true
    · simp [List.rdropWhile, List.dropWhile, hc]
    · simp [List.rdropWhile, List.dropWhile, hc]
  | append_singleton init x ih =>
    have hcons : c :: (init ++ [x]) = (c :: init) ++ [x] := rfl
    rw [hcons, List.rdropWhile_concat, List.rdropWhile_concat]
    by_cases hx : p x = true
    · simp only [hx, if_true]
      exact ih
    · simp only [hx, if_false]
      cases init <;> rfl

theorem stripRight_eq_rdropWhile (p : Char → Bool) (s : Str) :
    stripRight p s = s.rdropWhile p := by
  induction s with
  | nil => rfl
  | cons c cs ih =>
    rw [rdropWhile_cons, ← ih]
    rfl

theorem TrimSpace_eq_strip (s : Str) : TrimSpace s = strip isSpace s := by
  simp [TrimSpace, strip, stripLeft_eq_dropWhile, stripRight_eq_rdropWhile]

theorem Trim_quote_eq_strip (s : Str) : Trim s '"' = strip isQuote s := by
  simp only [strip, stripLeft_eq_dropWhile, stripRight_eq_rdropWhile]
  rfl

theorem stripLeft_spec (p : Char → Bool) (s : Str) :
    ∃ a, s = a ++ stripLeft p s ∧ (∀ c ∈ a, p c = true) ∧
      (∀ c, (stripLeft p s).head? = some c → p c = false) := by
  induction s with
  | nil => exact ⟨[], rfl, by simp, by simp [stripLeft]⟩
  | cons x xs ih =>
    by_cases hx : p x = true
    · obtain ⟨a, ha, hall, hhead⟩ := ih
      refine ⟨x :: a, ?_, ?_, ?_⟩
      · simp only [stripLeft, hx, if_true, List.cons_append]
        rw [← ha]
      · intro c hc
        rcases List.mem_cons.mp hc with e | e
        · rw [e]
          exact hx
        · exact hall c e
      · simpa only [stripLeft, hx, if_true] using hhead
    · refine ⟨[], ?_, by simp, ?_⟩
      · simp [stripLeft, hx]
      · intro c hc
        simp only [stripLeft, hx] at hc
        simp at hc
        rw [← hc]
        simpa using hx

theorem stripRight_spec (p : Char → Bool) (s : Str) :
    ∃ b, s = stripRight p s ++ b ∧ (∀ c ∈ b, p c = true) ∧
      (∀ c, (stripRight p s).getLast? = some c → p c = false) := by
  induction s with
  | nil => exact ⟨[], rfl, by simp, by simp [stripRight]⟩
  | cons x xs ih =>
    obtain ⟨b, hb, hall, hlast⟩ := ih
    cases hr : stripRight p xs with
    | nil =>
      rw [hr] at hb
      by_cases hx : p x = true
      · refine ⟨x :: xs, ?_, ?_, ?_⟩
        · simp [stripRight, hr, hx]
        · intro c hc
          rcases List.mem_cons.mp hc with e | e
          · rw [e]
            exact hx
          · rw [hb] at e
            exact hall c (by simpa using e)
        · simp [stripRight, hr, hx]
      · refine ⟨b, ?_, hall, ?_⟩
        · simp only [stripRight, hr, hx]
          simpa using hb
        · intro c hc
          simp only [stripRight, hr, hx] at hc
          simp at hc
          rw [← hc]
          simpa using hx
    | cons y ys =>
      rw [hr] at hb hlast
      refine ⟨b, ?_, hall, ?_⟩
      · simp only [stripRight, hr]
        rw [hb]
        rfl
      · intro c hc
        simp only [stripRight, hr] at hc
        apply hlast c
        simpa [List.getLast?_cons_cons] using hc

/-- The function `strip` removes exactly the characters of the class at both ends. -/
theorem Stripped_strip (p : Char → Bool) (s : Str) : Stripped p s (strip p s) := by
  obtain ⟨a, ha, hall, hhead⟩ := stripLeft_spec p s
  obtain ⟨b, hb, hallb, hlast⟩ := stripRight_spec p (stripLeft p s)
  refine ⟨a, b, ?_, hall, hallb, ?_, hlast⟩
  · unfold strip
    rw [List.append_assoc, ← hb]
    exact ha
  · intro c hc
    apply hhead c
    unfold strip at hc
    rw [hb]
    cases hsr : stripRight p (stripLeft p s) with
    | nil =>
      rw [hsr] at hc
      simp at hc
    | cons y ys =>
      rw [hsr] at hc
      simpa using hc

theorem first_colon_split {h : Str} (hc : ':' ∈ h) :
    h = h.takeWhile (fun c => c ≠ ':') ++ ':' :: (h.dropWhile (fun c => c ≠ ':')).drop 1 ∧
      ':' ∉ h.takeWhile (fun c => c ≠ ':') := by
  obtain ⟨a, b, hab, hna⟩ := exists_first_occurrence hc
  have h1 := Cut_of_mem hc
  have h2 : Cut h ':' = some (a, b) := by
    rw [hab]
    exact Cut_append hna b
  rw [h1] at h2
  simp only [Option.some.injEq, Prod.mk.injEq] at h2
  rw [h2.1, h2.2]
  exact ⟨hab, hna⟩

theorem parseFlags_H_ok (upper : Char → Char) {h : Str} (hc : ':' ∈ h) (rest : List Str)
    (r : CurlArgs) :
    parseFlags upper ("-H".toList :: h :: rest) r
      = parseFlags upper rest
          { r with Headers := mapSet r.Headers (headerKey h) (headerValue h) } := by
  have hs : SplitN2 h ':' = [h.takeWhile (fun c => c ≠ ':'),
      (h.dropWhile (fun c => c ≠ ':')).drop 1] := by
    simp [SplitN2, Cut_of_mem hc]
  have hne : ¬ "-H".toList = "-X".toList := by decide
  simp only [parseFlags, hne, if_false, if_true, hs, headerKey, headerValue,
    TrimSpace_eq_strip, Trim_quote_eq_strip]

theorem parseFlags_H_err (upper : Char → Char) {h : Str} (hc : ':' ∉ h) (rest : List Str)
    (r : CurlArgs) :
    parseFlags upper ("-H".toList :: h :: rest) r
      = .error (Error.errorf ("invalid header format: ".toList ++ h)) := by
  have hs : SplitN2 h ':' = [h] := by
    simp [SplitN2, Cut_eq_none hc]
  have hne : ¬ "-H".toList = "-X".toList := by decide
  simp only [parseFlags, hne, if_false, if_true, hs]

theorem parseFlags_single (upper : Char → Char) {u : Str} (huX : u ≠ "-X".toList)
    (huH : u ≠ "-H".toList) (r : CurlArgs) : parseFlags upper [u] r = .ok r := by
  unfold parseFlags
  simp only [huX, huH, if_false]
  unfold parseFlags
  rfl

theorem parseFlags_headerFlags (upper : Char → Char) {u : Str} (huX : u ≠ "-X".toList)
    (huH : u ≠ "-H".toList) (hs : List Str) (hcol : ∀ h ∈ hs, ':' ∈ h) (r : CurlArgs) :
    parseFlags upper (headerFlags hs ++ [u]) r
      = .ok { r with
              Headers := hs.foldl (fun m h => mapSet m (headerKey h) (headerValue h))
                r.Headers } := by
  induction hs generalizing r with
  | nil => simpa [headerFlags] using parseFlags_single upper huX huH r
  | cons h rest ih =>
    have hh : ':' ∈ h := hcol h (by simp)
    have hrest : ∀ x ∈ rest, ':' ∈ x := fun x hx => hcol x (by simp [hx])
    simp only [headerFlags, List.cons_append, parseFlags_H_ok upper hh, ih hrest,
      List.foldl_cons]

theorem parseFlags_headerFlags_err (upper : Char → Char) (u : Str) (pre : List Str)
    (hcol : ∀ h ∈ pre, ':' ∈ h) {h : Str} (hh : ':' ∉ h) (post : List Str) (r : CurlArgs) :
    parseFlags upper (headerFlags (pre ++ h :: post) ++ [u]) r
      = .error (Error.errorf ("invalid header format: ".toList ++ h)) := by
  induction pre generalizing r with
  | nil => simp only [List.nil_append, headerFlags, List.cons_append, parseFlags_H_err upper hh]
  | cons x rest ih =>
    have hx : ':' ∈ x := hcol x (by simp)
    have hrest : ∀ y ∈ rest, ':' ∈ y := fun y hy => hcol y (by simp [hy])
    have hstep : headerFlags ((x :: rest) ++ h :: post) ++ [u]
        = "-H".toList :: x :: (headerFlags (rest ++ h :: post) ++ [u]) := rfl
    rw [hstep, parseFlags_H_ok upper hx, ih hrest]

theorem mapGet_foldl_headers (hs : List Str) (m : StrMap) (k : Str) :
    mapGet (hs.foldl (fun m h => mapSet m (headerKey h) (headerValue h)) m) k
      = match lastHeader hs k with
        | some v => some v
        | none => mapGet m k := by
  induction hs generalizing m with
  | nil => simp [lastHeader]
  | cons h rest ih =>
    have hcons : lastHeader (h :: rest) k
        = match lastHeader rest k with
          | some v => some v
          | none => if headerKey h = k then some (headerValue h) else none := rfl
    rw [List.foldl_cons, ih, hcons]
    cases hl : lastHeader rest k with
    | some v => rfl
    | none =>
      by_cases hk : headerKey h = k
      · simp only [hk, if_true]
        rw [← hk]
        exact mapGet_mapSet_self _ _ _
      · simp only [hk, if_false]
        exact mapGet_mapSet_of_ne _ _ hk

theorem getD_append_length (pre : List Str) (p : Str) (rest : List Str) :
    (pre ++ p :: rest).getD pre.length [] = p := by
  induction pre with
  | nil => rfl
  | cons x xs ih => simpa using ih

theorem getD_append_length_succ (pre : List Str) (p u : Str) (rest : List Str) :
    (pre ++ p :: u :: rest).getD (pre.length + 1) [] = u := by
  induction pre with
  | nil => rfl
  | cons x xs ih => simpa using ih

theorem findURL_last (pre : List Str) {p u : Str} (hpX : p ≠ "-X".toList)
    (hpH : p ≠ "-H".toList) (huX : u ≠ "-X".toList) (huH : u ≠ "-H".toList) :
    findURL (pre ++ [p, u]) (pre.length + 1) = u := by
  rw [findURL, getD_append_length_succ, getD_append_length]
  exact if_pos ⟨huX, huH, Or.inr ⟨hpX, hpH⟩⟩

theorem headerFlags_snoc {first : Str} (hfX : first ≠ "-X".toList) (hfH : first ≠ "-H".toList)
    (hs : List Str) (hcol : ∀ h ∈ hs, ':' ∈ h) :
    ∃ pre p, first :: headerFlags hs = pre ++ [p] ∧ p ≠ "-X".toList ∧ p ≠ "-H".toList := by
  induction hs generalizing first with
  | nil => exact ⟨[], first, by simp [headerFlags], hfX, hfH⟩
  | cons h rest ih =>
    have hh : ':' ∈ h := hcol h (by simp)
    have hrest : ∀ x ∈ rest, ':' ∈ x := fun x hx => hcol x (by simp [hx])
    have hhX : h ≠ "-X".toList := fun e => by
      rw [e] at hh
      revert hh
      decide
    have hhH : h ≠ "-H".toList := fun e => by
      rw [e] at hh
      revert hh
      decide
    obtain ⟨pre, p, hpre, hp⟩ := ih hhX hhH hrest
    exact ⟨first :: "-H".toList :: pre, p, by simp [headerFlags, hpre], hp⟩

/-- C1: the validator accepts exactly the fourteen registry names, and a line
without a pipe and without a redirection whose first space-separated token is not
a registry name makes `execInput` return `ErrNonCmd`, the world untouched. (The
line `cd..` needs no separate exclusion: it is itself a registry name.) -/
theorem C1_validator_accepts_exactly_the_registry {W : Type} (os : OS W) (w : W)
    (s line t : Str) (rest : List Str) :
    (isValidCommand s = true ↔ IsRegistryName s) ∧
    ('|' ∉ line → '>' ∉ line → Split line ' ' = t :: rest → ¬ IsRegistryName t →
      execInput os line w = (.ret (some .ErrNonCmd), w)) := by
  refine ⟨isValidCommand_iff s, ?_⟩
  intro hp hr hsplit ht
  have hv : rangeFinds t commandsArray = false := by
    have := isValidCommand_iff t
    simp only [isValidCommand] at this
    cases h : rangeFinds t commandsArray with
    | false => rfl
    | true => exact absurd (this.mp h) ht
  have hrw : rewriteCdUp line (Split line ' ') = t :: rest := by
    unfold rewriteCdUp
    split
    · next h =>
      exfalso
      rw [h.2] at hsplit
      have : t = "cd..".toList := by
        have h2 : Split "cd..".toList ' ' = ["cd..".toList] := by decide
        rw [h2] at hsplit
        simp at hsplit
        exact hsplit.1.symm
      exact ht (by simp [IsRegistryName, this])
    · exact hsplit
  simp [execInput, Contains_eq_false hp, splitRedirect_of_not_mem hr, hrw, hv]

/-- C1 on concrete inputs: `dir` is accepted, and the line `frobnicate now` is
refused with `ErrNonCmd` in the recording world. -/
theorem C1_validator_accepts_exactly_the_registry_witness :
    (isValidCommand "dir".toList = true ↔ IsRegistryName "dir".toList) ∧
    execInput recOS "frobnicate now".toList World.start
      = (.ret (some .ErrNonCmd), World.start) :=
  ⟨(C1_validator_accepts_exactly_the_registry recOS World.start "dir".toList
      "frobnicate now".toList "frobnicate".toList ["now".toList]).1,
   (C1_validator_accepts_exactly_the_registry recOS World.start "dir".toList
      "frobnicate now".toList "frobnicate".toList ["now".toList]).2
      (by decide) (by decide) (by decide) (by simp [IsRegistryName])⟩

/-- C3: a redirection whose target is empty or white space only is a syntax error
with no effect. The line is `pre`, then the first `>`, then `post` made of white
space. Without a pipe `execInput` returns `ErrInvalidSyntax`; when the first pipe
stands before that `>`, `handlePiping` (and `execInput`, which delegates to it)
returns `ErrInvalidSyntax`; in both cases the world is the one it started from, for
every operating system, so no command has run. -/
theorem C3_empty_redirect_target_is_refused {W : Type} (os : OS W) (w : W)
    (pre post : Str) (hpre : '>' ∉ pre) (hpost : ∀ c ∈ post, isSpace c = true) :
    ('|' ∉ pre →
      execInput os (pre ++ '>' :: post) w = (.ret (some .ErrInvalidSyntax), w)) ∧
    ('|' ∈ pre →
      handlePiping os (pre ++ '>' :: post) w = (some .ErrInvalidSyntax, w) ∧
      execInput os (pre ++ '>' :: post) w = (.ret (some .ErrInvalidSyntax), w)) := by
  have hbar : '|' ∉ post := fun h => by
    have := hpost _ h
    revert this
    decide
  constructor
  · intro hp
    have hline : '|' ∉ pre ++ '>' :: post := by
      simp [hp, hbar]
    simp [execInput, Contains_eq_false hline, splitRedirect_empty_target hpre hpost]
  · intro hp
    obtain ⟨a, b, hab, hna⟩ := exists_first_occurrence hp
    have hb : '>' ∉ b := fun h => hpre (by simp [hab, h])
    have hgt : isSpace '>' = false := by decide
    have hpipe : handlePiping os (pre ++ '>' :: post) w = (some .ErrInvalidSyntax, w) := by
      have hline : pre ++ '>' :: post = a ++ '|' :: (b ++ '>' :: post) := by
        simp [hab]
      have hb2 : '>' ∉ b.dropWhile isSpace :=
        fun h => hb ((List.dropWhile_sublist isSpace).subset h)
      have hsr : splitRedirect (b.dropWhile isSpace ++ [ '>' ]) = .error .ErrInvalidSyntax :=
        splitRedirect_empty_target hb2 (by simp)
      rw [hline]
      simp [handlePiping, SplitN2_append hna, TrimSpace_append_cons hgt b hpost, hsr]
    refine ⟨hpipe, ?_⟩
    have hline : '|' ∈ pre ++ '>' :: post := by
      simp [hp]
    simp [execInput, Contains_eq_true hline, hpipe]

/-- C3 on the line `echo hi >` of the specification (no pipe) and on the piped
line `echo hi | type f >`, in the recording world. -/
theorem C3_empty_redirect_target_is_refused_witness :
    execInput recOS "echo hi >".toList World.start
      = (.ret (some .ErrInvalidSyntax), World.start) ∧
    handlePiping recOS "echo hi | type f > ".toList World.start
      = (some .ErrInvalidSyntax, World.start) :=
  ⟨(C3_empty_redirect_target_is_refused recOS World.start "echo hi ".toList []
      (by decide) (by simp)).1 (by decide),
   ((C3_empty_redirect_target_is_refused recOS World.start "echo hi | type f ".toList
      " ".toList (by decide) (by decide)).2 (by decide)).1⟩

/-- C4: the lines `cd..` and `cd ..` do the same thing, namely one change of the
working directory to `..` whose result is returned, and `cd` alone returns
`ErrNoPath` and leaves the world as it was. -/
theorem C4_cd_up_forms_are_equivalent {W : Type} (os : OS W) (w : W) :
    execInput os "cd..".toList w = execInput os "cd ..".toList w ∧
    execInput os "cd ..".toList w
      = (.ret ((os.Chdir "..".toList w).1.map Error.sys), (os.Chdir "..".toList w).2) ∧
    execInput os "cd".toList w = (.ret (some .ErrNoPath), w) := by
  have hfs : FromSlash os.Separator "..".toList = "..".toList := by
    unfold FromSlash
    split
    · rfl
    · rfl
  refine ⟨rfl, ?_, rfl⟩
  show (Outcome.ret ((os.Chdir (FromSlash os.Separator "..".toList) w).1.map Error.sys),
    (os.Chdir (FromSlash os.Separator "..".toList) w).2) = _
  rw [hfs]

/-- C5, amended: piping echo into type writes what echo itself would write. The
words contain no `|` and no `>`, and their join by single spaces is non-empty with
no white space at either end; the file name `f` is non-empty, has no white space
at either end and contains no space, `|` or `>`; the redirect target `g` is
non-empty with no white space at either end. Then `echo words | type f` is the one
call `os.WriteFile(f, join + "\n", 0644)`, which is also what `echo words > f`
does, and with `> g` on the right-hand side the same bytes are then written to `g`. -/
theorem C5_pipe_echo_into_type_writes_echo_output {W : Type} (os : OS W) (w : W)
    (words : List Str) (f g : Str)
    (hw : ∀ x ∈ words, '|' ∉ x ∧ '>' ∉ x)
    (h0 : Join words " ".toList ≠ [])
    (ht : TrimSpace (Join words " ".toList) = Join words " ".toList)
    (hf0 : f ≠ []) (hft : TrimSpace f = f)
    (hf : ' ' ∉ f ∧ '|' ∉ f ∧ '>' ∉ f) :
    handlePiping os ("echo ".toList ++ Join words " ".toList ++ " | type ".toList ++ f) w
      = tryWrite os "Failed to write to file: " f (Join words " ".toList ++ "\n".toList) w ∧
    execInput os ("echo ".toList ++ Join words " ".toList ++ " > ".toList ++ f) w
      = (.ret (tryWrite os "Failed to write to file: " f
            (Join words " ".toList ++ "\n".toList) w).1,
          (tryWrite os "Failed to write to file: " f
            (Join words " ".toList ++ "\n".toList) w).2) ∧
    (g ≠ [] → TrimSpace g = g →
      handlePiping os
        ("echo ".toList ++ Join words " ".toList ++ " | type ".toList ++ f ++ " > ".toList ++ g) w
      = match tryWrite os "Failed to write to file: " f
            (Join words " ".toList ++ "\n".toList) w with
        | (some e, w1) => (some e, w1)
        | (none, w1) =>
          tryWrite os "Failed to write to file: " g
            (Join words " ".toList ++ "\n".toList) w1) := by
  generalize htext : Join words " ".toList = text at *
  have hbar : '|' ∉ text := by
    rw [← htext]
    exact not_mem_Join (by decide) (fun x hx => (hw x hx).1)
  have hgt2 : '>' ∉ text := by
    rw [← htext]
    exact not_mem_Join (by decide) (fun x hx => (hw x hx).2)
  have hL : '|' ∉ "echo ".toList ++ text ++ " ".toList := by
    simp [hbar]
  have hL2 : '>' ∉ "echo ".toList ++ text ++ " ".toList := by
    simp [hgt2]
  have hsp : ∀ x ∈ " ".toList, isSpace x = true := by decide
  have hnil : ∀ x ∈ ([] : Str), isSpace x = true := by simp
  have hleft : TrimSpace ("echo ".toList ++ text ++ " ".toList) = "echo ".toList ++ text := by
    have := TrimSpace_around_cons hnil hsp 'e' (by decide) "cho ".toList h0 ht
    simpa using this
  have hsplit : Split ("echo ".toList ++ text) ' ' = "echo".toList :: Split text ' ' := by
    have := @Split_append_sep "echo".toList ' ' (by decide) text
    simpa using this
  obtain ⟨t, ts, hts⟩ : ∃ t ts, Split text ' ' = t :: ts := by
    cases hs : Split text ' ' with
    | nil => exact absurd hs (Split_ne_nil _ _)
    | cons t ts => exact ⟨t, ts, rfl⟩
  have hjoin : Join (t :: ts) " ".toList = text := by
    rw [← hts]
    exact Join_Split text ' '
  have hecho : isValidCommand "echo".toList = true := by decide
  have hecho2 : rangeFinds "echo".toList commandsArray = true := by decide
  have htype : isValidCommand "type".toList = true := by decide
  have hrsplit : Split ("type ".toList ++ f) ' ' = ["type".toList, f] := by
    have := @Split_append_sep "type".toList ' ' (by decide) f
    rw [Split_of_not_mem hf.1] at this
    simpa using this
  refine ⟨?_, ?_, ?_⟩
  · have hright : TrimSpace (" type ".toList ++ f) = "type ".toList ++ f := by
      have := TrimSpace_around_cons hsp hnil 't' (by decide) "ype ".toList hf0 hft
      simpa using this
    have hrne : TrimSpace (" type ".toList ++ f) ≠ [] := by
      rw [hright]
      simp
    have hredir : splitRedirect ("type ".toList ++ f) = .ok ("type ".toList ++ f, []) :=
      splitRedirect_of_not_mem (by simp [hf.2.2])
    have hline : "echo ".toList ++ text ++ " | type ".toList ++ f
        = ("echo ".toList ++ text ++ " ".toList) ++ '|' :: (" type ".toList ++ f) := by
      simp
    rw [handlePiping_of_split os w _ _ _ (by rw [hline]; exact SplitN2_append hL _) hrne]
    rw [hright, hredir]
    simp only [hleft, hsplit, hts, rewriteCdUp_of_two, List.getD_cons_zero, hecho,
      pipeLeft_echo, hjoin, hrsplit, htype, pipeRight_type, not_true_eq_false, if_false,
      ne_eq]
    exact tryWrite_match_eta _
  · have hfile : TrimSpace (" ".toList ++ f) = f := by
      have := TrimSpace_around hsp hnil hf0 hft
      simpa using this
    have hline : "echo ".toList ++ text ++ " > ".toList ++ f
        = ("echo ".toList ++ text ++ " ".toList) ++ '>' :: (" ".toList ++ f) := by
      simp
    have hnb : '|' ∉ "echo ".toList ++ text ++ " > ".toList ++ f := by
      simp [hbar, hf.2.1]
    have hsr : splitRedirect ("echo ".toList ++ text ++ " > ".toList ++ f)
        = .ok ("echo ".toList ++ text, f) := by
      rw [hline, splitRedirect_of_split hL2 (by rw [hfile]; exact hf0), hleft, hfile]
    rw [execInput_of_redirect os w _ _ _ hnb hsr]
    simp only [hsplit, hts, rewriteCdUp_of_two, List.getD_cons_zero, hecho2,
      not_true_eq_false, if_false, execBuiltin_echo os w _ _ _ _ hf0, hjoin]
  · intro hg0 hgt
    have hright : TrimSpace (" type ".toList ++ f ++ " > ".toList ++ g)
        = "type ".toList ++ f ++ " > ".toList ++ g := by
      have := TrimSpace_around_cons hsp hnil 't' (by decide)
        ("ype ".toList ++ f ++ " > ".toList) hg0 hgt
      simpa using this
    have hrne : TrimSpace (" type ".toList ++ f ++ " > ".toList ++ g) ≠ [] := by
      rw [hright]
      simp
    have hcmd : TrimSpace ("type ".toList ++ f ++ " ".toList) = "type ".toList ++ f := by
      have := TrimSpace_around_cons hnil hsp 't' (by decide) "ype ".toList hf0 hft
      simpa using this
    have hfile : TrimSpace (" ".toList ++ g) = g := by
      have := TrimSpace_around hsp hnil hg0 hgt
      simpa using this
    have hredir : splitRedirect ("type ".toList ++ f ++ " > ".toList ++ g)
        = .ok ("type ".toList ++ f, g) := by
      have hpre : '>' ∉ "type ".toList ++ f ++ " ".toList := by
        simp [hf.2.2]
      have hl : "type ".toList ++ f ++ " > ".toList ++ g
          = ("type ".toList ++ f ++ " ".toList) ++ '>' :: (" ".toList ++ g) := by
        simp
      rw [hl, splitRedirect_of_split hpre (by rw [hfile]; exact hg0), hcmd, hfile]
    have hline : "echo ".toList ++ text ++ " | type ".toList ++ f ++ " > ".toList ++ g
        = ("echo ".toList ++ text ++ " ".toList)
          ++ '|' :: (" type ".toList ++ f ++ " > ".toList ++ g) := by
      simp
    rw [handlePiping_of_split os w _ _ _ (by rw [hline]; exact SplitN2_append hL _) hrne]
    rw [hright, hredir]
    simp only [hleft, hsplit, hts, rewriteCdUp_of_two, List.getD_cons_zero, hecho,
      pipeLeft_echo, hjoin, hrsplit, htype, pipeRight_type, not_true_eq_false, if_false,
      ne_eq, hg0, not_false_eq_true, if_true]

/-- C5 amended, on the line of the specification: in the recording world
`echo hi | type out.txt` leaves `out.txt` holding exactly `hi` and a newline. -/
theorem C5_pipe_echo_into_type_writes_echo_output_witness :
    handlePiping recOS "echo hi | type out.txt".toList World.start
      = (none, { World.start with files := [("out.txt".toList, "hi\n".toList)] }) :=
  (C5_pipe_echo_into_type_writes_echo_output recOS World.start ["hi".toList]
    "out.txt".toList "g".toList (by decide) (by decide) (by decide) (by decide) (by decide)
    (by decide)).1

/-- C5 as stated fails for a file name with a space in it: `echo hi | type a b`
writes the file `a` and leaves no file `a b`, whereas `echo hi > a b` writes the
file `a b`. -/
theorem C5_file_name_with_a_space_diverges :
    (handlePiping recOS "echo hi | type a b".toList World.start).2.files
      = [("a".toList, "hi\n".toList)] ∧
    mapGet (handlePiping recOS "echo hi | type a b".toList World.start).2.files "a b".toList
      = none ∧
    (execInput recOS "echo hi > a b".toList World.start).2.files
      = [("a b".toList, "hi\n".toList)] := by
  decide

/-- C7 fails on the code. On `curl a -X -H u` the forward flag scan takes `-H` as
the value of `-X` (the parsed method is `-H`), so the tokens it treats as positional
are `a` and `u` and the last of them is `u`; the reverse scan skips `u` because it
follows a token spelled `-H`, and the call succeeds with URL `a`. -/
theorem C7_reverse_scan_misses_last_positional (upper : Char → Char) :
    ParseCurlArgs upper
        ["curl".toList, "a".toList, "-X".toList, "-H".toList, "u".toList] []
      = .ok { URL := "a".toList, Method := "-H".toList, Headers := [], Data := none } ∧
    forwardPositionals ["a".toList, "-X".toList, "-H".toList, "u".toList]
      = ["a".toList, "u".toList] ∧
    (forwardPositionals ["a".toList, "-X".toList, "-H".toList, "u".toList]).getLast?
      = some "u".toList :=
  ⟨rfl, rfl, rfl⟩

/-- C8: for an ASCII method text `m` and a non-empty URL token `u`, neither of them
`-X` or `-H`, `ParseCurlArgs(["curl", "-X", m, u], nil)` succeeds with the method
uppercased, the URL `u`, an empty header map and no body. -/
theorem C8_method_flag_uppercases (upper : Char → Char) (m u : Str)
    (hm : ∀ c ∈ m, c.toNat < 128) (hu : u ≠ [])
    (hmX : m ≠ "-X".toList) (hmH : m ≠ "-H".toList)
    (huX : u ≠ "-X".toList) (huH : u ≠ "-H".toList) :
    ParseCurlArgs upper ["curl".toList, "-X".toList, m, u] []
      = .ok { URL := u, Method := m.map Char.toUpper, Headers := [], Data := none } := by
  have hX : "-X".toList = [ '-', 'X' ] := rfl
  have hH : "-H".toList = [ '-', 'H' ] := rfl
  rw [hX] at hmX huX
  rw [hH] at hmH huH
  simp [ParseCurlArgs, parseFlags, findURL, ToUpper_ascii upper hm, hu, hmX, hmH, huX, huH]

/-- C8 on the example of the specification: `-X post` gives the method `POST`. -/
theorem C8_method_flag_uppercases_witness :
    ParseCurlArgs id ["curl".toList, "-X".toList, "post".toList, "http://x".toList] []
      = .ok { URL := "http://x".toList, Method := "POST".toList, Headers := [], Data := none } :=
  C8_method_flag_uppercases id "post".toList "http://x".toList (by decide) (by decide)
    (by decide) (by decide) (by decide) (by decide)

/-- C9: each `-H h` flag is split once at its first colon, both parts are trimmed of
white space and then of enclosing double quotes, and the pair is stored, the last
occurrence of a key winning; a header text without a colon makes the parse fail.
For header texts `hs` and a URL token `u`: when every text has a colon, the call
on `curl -H h1 ... -H hn u` succeeds with URL `u` and, for every key, the value of
the last text with that key; when a text lacks a colon, the call fails with
"invalid header format" for the first such text. The third part is the step of
the flag loop at any `-H h`, whatever precedes and follows it. The last part says
what the stored key and value are, with no reference to how they are computed: the
header text is the raw key, the first colon, the raw value; the key is the raw key
with the white space at both ends removed and then the double quotes at both ends,
and the value likewise. -/
theorem C9_header_flag_splits_at_first_colon (upper : Char → Char) (hs : List Str)
    (u : Str) (piped : Bytes)
    (hu0 : u ≠ []) (huX : u ≠ "-X".toList) (huH : u ≠ "-H".toList) :
    ((∀ h ∈ hs, ':' ∈ h) →
      ∃ r, ParseCurlArgs upper ("curl".toList :: (headerFlags hs ++ [u])) piped = .ok r ∧
        r.URL = u ∧ r.Method = [] ∧ r.Data = none ∧
        ∀ k, mapGet r.Headers k = lastHeader hs k) ∧
    (∀ pre h post, hs = pre ++ h :: post → (∀ x ∈ pre, ':' ∈ x) → ':' ∉ h →
      ParseCurlArgs upper ("curl".toList :: (headerFlags hs ++ [u])) piped
        = .error (Error.errorf ("invalid header format: ".toList ++ h))) ∧
    (∀ (h : Str) (rest : List Str) (r : CurlArgs),
      parseFlags upper ("-H".toList :: h :: rest) r
        = if ':' ∈ h then
            parseFlags upper rest
              { r with Headers := mapSet r.Headers (headerKey h) (headerValue h) }
          else .error (Error.errorf ("invalid header format: ".toList ++ h))) ∧
    (∀ h : Str, ':' ∈ h →
      ∃ rawKey rawValue k1 v1,
        h = rawKey ++ ':' :: rawValue ∧ ':' ∉ rawKey ∧
        Stripped isSpace rawKey k1 ∧ Stripped isQuote k1 (headerKey h) ∧
        Stripped isSpace rawValue v1 ∧ Stripped isQuote v1 (headerValue h)) := by
  have hlen : ¬ ("curl".toList :: (headerFlags hs ++ [u])).length < 2 := by
    simp
  refine ⟨?_, ?_, ?_, ?_⟩
  · intro hcol
    obtain ⟨pre, p, hpre, hpX, hpH⟩ :=
      @headerFlags_snoc "curl".toList (by decide) (by decide) hs hcol
    have hargs : "curl".toList :: (headerFlags hs ++ [u]) = pre ++ [p, u] := by
      rw [← List.cons_append, hpre]
      simp
    have hurl : findURL ("curl".toList :: (headerFlags hs ++ [u]))
        (("curl".toList :: (headerFlags hs ++ [u])).length - 1) = u := by
      rw [hargs]
      have : (pre ++ [p, u]).length - 1 = pre.length + 1 := by simp
      rw [this]
      exact findURL_last pre hpX hpH huX huH
    refine ⟨{ URL := u, Method := [], Data := none,
              Headers := hs.foldl (fun m h => mapSet m (headerKey h) (headerValue h)) [] },
      ?_, rfl, rfl, rfl, ?_⟩
    · unfold ParseCurlArgs
      simp only [hlen, if_false, List.drop_succ_cons, List.drop_zero,
        parseFlags_headerFlags upper huX huH hs hcol, hurl, hu0]
      simp
    · intro k
      rw [mapGet_foldl_headers]
      cases lastHeader hs k <;> rfl
  · intro pre h post hhs hcol hh
    subst hhs
    unfold ParseCurlArgs
    simp only [hlen, if_false, List.drop_succ_cons, List.drop_zero,
      parseFlags_headerFlags_err upper u pre hcol hh post]
  · intro h rest r
    have hne : ¬ "-H".toList = "-X".toList := by decide
    have hquote : ∀ s : Str, Trim s '"' = strip isQuote s := by
      intro s
      simp only [strip, stripLeft_eq_dropWhile, stripRight_eq_rdropWhile]
      rfl
    have hspace : ∀ s : Str, TrimSpace s = strip isSpace s := by
      intro s
      simp only [strip, stripLeft_eq_dropWhile, stripRight_eq_rdropWhile]
      rfl
    by_cases hc : ':' ∈ h
    · have hs : SplitN2 h ':' = [h.takeWhile (fun c => c ≠ ':'),
          (h.dropWhile (fun c => c ≠ ':')).drop 1] := by
        simp [SplitN2, Cut_of_mem hc]
      rw [if_pos hc]
      simp only [parseFlags, hne, if_false, if_true, hs, headerKey, headerValue, hquote,
        hspace]
    · have hs : SplitN2 h ':' = [h] := by
        simp [SplitN2, Cut_eq_none hc]
      rw [if_neg hc]
      simp only [parseFlags, hne, if_false, if_true, hs]
  · intro h hc
    obtain ⟨hsplit, hna⟩ := first_colon_split hc
    exact ⟨_, _, _, _, hsplit, hna, Stripped_strip isSpace _, Stripped_strip isQuote _,
      Stripped_strip isSpace _, Stripped_strip isQuote _⟩

/-- C9 on the example of the specification: the header map is exactly
`Content-Type` with the value `text/plain`. A header text without a colon is
refused. Quoted parts lose their quotes and a value keeps its own colons:
`"Content-Type" : "text/plain"` and `Referer: http://a:80/` give the keys
`Content-Type` and `Referer` with the values `text/plain` and `http://a:80/`, and
a repeated key keeps its last value. -/
theorem C9_header_flag_splits_at_first_colon_witness :
    (∃ r, ParseCurlArgs id
        ("curl".toList :: (headerFlags ["Content-Type: text/plain".toList] ++ ["http://x".toList]))
        [] = .ok r ∧
      r.URL = "http://x".toList ∧ r.Method = [] ∧ r.Data = none ∧
      ∀ k, mapGet r.Headers k = lastHeader ["Content-Type: text/plain".toList] k) ∧
    ParseCurlArgs id
        ["curl".toList, "-H".toList, "Content-Type: text/plain".toList, "http://x".toList] []
      = .ok { URL := "http://x".toList, Method := [],
              Headers := [("Content-Type".toList, "text/plain".toList)], Data := none } ∧
    ParseCurlArgs id
        ("curl".toList :: (headerFlags ["Accept".toList] ++ ["http://x".toList])) []
      = .error (Error.errorf "invalid header format: Accept".toList) ∧
    ParseCurlArgs id
        ["curl".toList, "-H".toList, "\"Content-Type\" : \"text/plain\"".toList,
         "-H".toList, "Referer: http://a:80/".toList,
         "-H".toList, "Referer:\t\"http://b:80/\" ".toList, "http://x".toList] []
      = .ok { URL := "http://x".toList, Method := [],
              Headers := [("Content-Type".toList, "text/plain".toList),
                          ("Referer".toList, "http://b:80/".toList)],
              Data := none } ∧
    headerKey "\"Content-Type\" : \"text/plain\"".toList = "Content-Type".toList ∧
    headerValue "\"Content-Type\" : \"text/plain\"".toList = "text/plain".toList ∧
    headerValue "Referer:\t\"http://b:80/\" ".toList = "http://b:80/".toList :=
  ⟨(C9_header_flag_splits_at_first_colon id ["Content-Type: text/plain".toList]
      "http://x".toList [] (by decide) (by decide) (by decide)).1 (by decide),
   rfl,
   (C9_header_flag_splits_at_first_colon id ["Accept".toList]
      "http://x".toList [] (by decide) (by decide) (by decide)).2.1 [] "Accept".toList []
      rfl (by simp) (by decide),
   rfl, rfl, rfl, rfl⟩

/-- C10 fails on the code. The line `curl -H "Content-Type: text/plain" http://x` is
split on single spaces, so the header text handed to the `-H` branch is
`"Content-Type:` alone: the parse succeeds with URL `http://x` and the header
`Content-Type` holding the empty value, and that descriptor is what `execInput`
executes. -/
theorem C10_quoted_header_value_is_lost {W : Type} (os : OS W) (w : W) :
    Split "curl -H \"Content-Type: text/plain\" http://x".toList ' '
      = ["curl".toList, "-H".toList, "\"Content-Type:".toList, "text/plain\"".toList,
          "http://x".toList] ∧
    ParseCurlArgs os.unicodeUpper
        (Split "curl -H \"Content-Type: text/plain\" http://x".toList ' ') []
      = .ok { URL := "http://x".toList, Method := [],
              Headers := [("Content-Type".toList, [])], Data := none } ∧
    execInput os "curl -H \"Content-Type: text/plain\" http://x".toList w
      = (.ret (curlTo os
            { URL := "http://x".toList, Method := [],
              Headers := [("Content-Type".toList, [])], Data := none } [] w).1,
          (curlTo os
            { URL := "http://x".toList, Method := [],
              Headers := [("Content-Type".toList, [])], Data := none } [] w).2) :=
  ⟨rfl, rfl, rfl⟩

end BasicShell
